import Mathlib

/-!
Shallow embedding of the `iterator` repository's Ralph-loop core
(`ai_refactor/ralph_adapter.py`, `ai_refactor/prd_generator.py`,
`ai_refactor/context_manager.py`) and proofs of behavioural properties of
the story scheduler, the iteration executor, the backlog merge and the
context truncation policy.

Conventions of the embedding:
* Python dict fields read with `.get(key, default)` are modelled either as
  plain fields (when the default is only ever observed as the written value,
  e.g. `attempts` defaults to 0 and is only ever written) or as `Option`
  fields (when presence matters, e.g. `max_attempts`, `tests_ok`).
* Python truthiness of optional strings / ints is modelled explicitly
  (`pyStrTruthy`, `pyNatTruthy`): `None`, `""` and `0` are falsy.
* External effects (the `run_once` pipeline, writing `prd.json`) are
  parameters of the embedded functions: an `Except` value for the pipeline
  outcome and `Bool` flags for whether each persistence call succeeds.
* Timestamps (`datetime.now`) are passed in as opaque strings.
* Text processed by the context manager is modelled as `List Char`
  (Python strings are sequences of code points); float arithmetic
  `available * 0.8` in `truncate_context_intelligently` is modelled by the
  exact rational comparison `5 * storyTokens > 4 * available` and
  `int(available * 0.8 * 3)` by `12 * available / 5`.
-/

/-- Python truthiness of an optional string: `None` and `""` are falsy. -/
def pyStrTruthy : Option String → Bool
  | none => false
  | some s => !s.isEmpty

/-- Python truthiness of an optional integer: `None` and `0` are falsy. -/
def pyNatTruthy : Option Nat → Bool
  | none => false
  | some n => n != 0

/-- Python `a or b` on optional integers (used for
`story.get("max_attempts") or max_attempts_per_story`). -/
def pyOrNat (a b : Option Nat) : Option Nat :=
  if pyNatTruthy a then a else b

/-- Whether `pat` is a leading segment of `l` (helper for the Python
substring test `pat in s` and for `str.startswith`). -/
def subAt (pat l : List Char) : Bool :=
  match pat, l with
  | [], _ => true
  | _ :: _, [] => false
  | p :: ps, c :: cs => p == c && subAt ps cs

/-- Python substring containment `pat in s` on code-point lists. -/
def hasSub (pat : List Char) : List Char → Bool
  | [] => subAt pat []
  | c :: t => subAt pat (c :: t) || hasSub pat t

/-- Python `s.startswith(pre)` (on code points, matching CPython). -/
def strStartsWith (pre s : String) : Bool :=
  subAt pre.toList s.toList

/-- Value of a run of ASCII digits (Python `int(...)` on a digit string,
also the regex group of `re.match(r"US(\d+)", story_id)`). -/
def digitsVal (ds : List Char) : Nat :=
  ds.foldl (fun n c => 10 * n + (c.toNat - 48)) 0

/-- A user story of the PRD backlog (`prd.json` `stories[]` entry).
`status` defaults to `"todo"` where the code reads it with
`story.get("status", "todo")`; a story without the key behaves exactly like
one with `"todo"`, so the default is absorbed into the field. -/
structure Story where
  id : String
  title : String
  description : String
  priority : String
  acceptance_criteria : List String
  independent_test : String
  tasks : List String
  status : String
  attempts : Nat
  last_error : Option String
  last_updated_at : Option String
  max_attempts : Option Nat
  deriving Repr, DecidableEq

/-- Result dictionary produced by the `run_once` pipeline (or synthesised on
exception). Every key may be absent. -/
structure PipelineResult where
  decision : Option String
  tests_ok : Option Bool
  error : Option String
  critic_reason : Option String
  deriving Repr, DecidableEq

/-- Success test of `update_story_after_attempt`:
`result.get("decision") == "SHIP" and result.get("tests_ok", False)`. -/
def resultSuccess (r : PipelineResult) : Bool :=
  r.decision == some "SHIP" && r.tests_ok.getD false

/-- Error-message computation of `update_story_after_attempt`:
`error_msg = result.get("error")`, recomputed when falsy from the decision,
the critic reason, or the test outcome. -/
def errorMsgOf (r : PipelineResult) : String :=
  if pyStrTruthy r.error then r.error.getD ""
  else if r.decision ≠ some "SHIP" then
    let decision := r.decision.getD "UNKNOWN"
    if pyStrTruthy r.critic_reason then
      "Agent decision: " ++ decision ++ " - " ++ r.critic_reason.getD ""
    else
      "Agent decision: " ++ decision
  else if r.tests_ok.getD true = false then "Tests failed"
  else "Unknown error"

/-- The `if max_attempts and story["attempts"] >= max_attempts` guard
(Python: a `None` or `0` cap never triggers). -/
def capReached (cap : Option Nat) (attempts : Nat) : Bool :=
  pyNatTruthy cap && decide (cap.getD 0 ≤ attempts)

/-- `update_story_after_attempt(story, result, max_attempts)` from
`ralph_adapter.py`: increments `attempts`, stamps `last_updated_at`, then on
success sets `status="pass"` and clears `last_error`, otherwise records the
error message and sets `status` to `"fail"` (cap reached) or
`"in_progress"`. `now` stands for `datetime.now(UTC).isoformat() + "Z"`. -/
def update_story_after_attempt (story : Story) (result : PipelineResult)
    (max_attempts : Option Nat) (now : String) : Story :=
  let story := { story with attempts := story.attempts + 1, last_updated_at := some now }
  if resultSuccess result then
    { story with status := "pass", last_error := none }
  else
    let errMsg := errorMsgOf result
    if capReached max_attempts story.attempts then
      { story with status := "fail", last_error := some errMsg }
    else
      { story with status := "in_progress", last_error := some errMsg }

/-- Status rank of `select_next_story`'s sort key:
`{"todo": 0, "in_progress": 1, "fail": 2, "pass": 3}.get(status, 99)`. -/
def statusPriority (st : String) : Nat :=
  if st = "todo" then 0
  else if st = "in_progress" then 1
  else if st = "fail" then 2
  else if st = "pass" then 3
  else 99

/-- Numeric priority of `select_next_story`'s sort key:
`int(priority[1:]) if priority.startswith("P") and priority[1:].isdigit() else 99`.
(`isdigit` is modelled for ASCII digits, the only ones the backlog uses.) -/
def priorityNum (p : String) : Nat :=
  let rest := p.drop 1
  if strStartsWith "P" p && !rest.toList.isEmpty && rest.toList.all Char.isDigit then
    digitsVal rest.toList
  else 99

/-- Numeric id of `select_next_story`'s sort key: the leading digit run after
a `US` prefix, 9999 when `re.match(r"US(\d+)", story_id)` fails. -/
def idNum (storyId : String) : Nat :=
  if strStartsWith "US" storyId then
    let ds := (storyId.drop 2).toList.takeWhile Char.isDigit
    if ds.isEmpty then 9999 else digitsVal ds
  else 9999

/-- The `sort_key` closure of `select_next_story`:
`(status_priority, priority_num, id_num, attempts)`. -/
def storySortKey (s : Story) : Nat × Nat × Nat × Nat :=
  (statusPriority s.status, priorityNum s.priority, idNum s.id, s.attempts)

/-- Lexicographic order on 4-tuples, the order `list.sort(key=sort_key)`
sorts by. -/
def tupLe (k₁ k₂ : Nat × Nat × Nat × Nat) : Bool :=
  decide (k₁.1 < k₂.1) ||
    (k₁.1 == k₂.1 && (decide (k₁.2.1 < k₂.2.1) ||
      (k₁.2.1 == k₂.2.1 && (decide (k₁.2.2.1 < k₂.2.2.1) ||
        (k₁.2.2.1 == k₂.2.2.1 && decide (k₁.2.2.2 ≤ k₂.2.2.2))))))

/-- Comparison used to model `eligible.sort(key=sort_key)`. -/
def storyLe (a b : Story) : Bool :=
  tupLe (storySortKey a) (storySortKey b)

/-- Eligibility filter of `select_next_story`: skip `status == "pass"` unless
`force`, and skip stories whose effective cap
(`story.get("max_attempts") or max_attempts_per_story`) is truthy and
`attempts >= max_attempts`. -/
def storyEligible (s : Story) (maxAttemptsPerStory : Option Nat) (force : Bool) : Bool :=
  !(s.status == "pass" && !force) &&
    !capReached (pyOrNat s.max_attempts maxAttemptsPerStory) s.attempts

/-- The effective attempt cap as an optional value: `some c` exactly when the
Python `or`-combined cap is truthy (a nonzero integer). -/
def effectiveCap (s : Story) (maxAttemptsPerStory : Option Nat) : Option Nat :=
  if pyNatTruthy (pyOrNat s.max_attempts maxAttemptsPerStory) then
    pyOrNat s.max_attempts maxAttemptsPerStory
  else none

/-- `select_next_story(prd, max_attempts_per_story, target_story_id, force)`
from `ralph_adapter.py`, taking the backlog's story list. With a target id it
returns the first story with that id when eligible; otherwise it filters the
eligible stories, sorts them by `sort_key` (Python's stable sort, modelled by
`List.mergeSort`) and returns the first. -/
def select_next_story (stories : List Story) (maxAttemptsPerStory : Option Nat)
    (targetStoryId : Option String) (force : Bool) : Option Story :=
  match targetStoryId with
  | some tid =>
    match stories.find? (fun s => s.id == tid) with
    | some story =>
      if story.status == "pass" && !force then none
      else if capReached (pyOrNat story.max_attempts maxAttemptsPerStory) story.attempts then
        none
      else some story
    | none => none
  | none =>
    let eligible := stories.filter (fun s => storyEligible s maxAttemptsPerStory force)
    (eligible.mergeSort storyLe).head?

/-- Iteration result dictionary built at the end of `run_ralph_iteration`. -/
structure IterResult where
  story_id : String
  story_title : String
  attempt : Nat
  result : PipelineResult
  status : String
  deriving Repr, DecidableEq

/-- The synthetic result built when `run_once` raises:
`{"decision": "ERROR", "tests_ok": False, "error": f"Exception: {e}"}`. -/
def syntheticErrorResult (e : String) : PipelineResult :=
  { decision := some "ERROR", tests_ok := some false,
    error := some ("Exception: " ++ e), critic_reason := none }

/-- `run_ralph_iteration` from `ralph_adapter.py`, with its external effects
as parameters: `runOnceOutcome` is what the `run_once` call does (`.ok r` a
result, `.error e` an exception whose message is `e`), `saveEntryOk` whether
the unguarded `_save_prd` before execution succeeds, `savePostOk` whether the
`try`-guarded `_save_prd` after execution succeeds (its failure is only
logged, so it does not influence the returned state). The function marks the
story `in_progress`, increments `attempts`, persists, runs the pipeline
(converting an exception into `syntheticErrorResult`), applies
`update_story_after_attempt` with the effective cap, and returns the updated
story together with the iteration result dictionary. A failure of the entry
persist is not caught anywhere in the function body, hence the `.error`
outcome. -/
def run_ralph_iteration (story : Story) (maxAttemptsPerStory : Option Nat)
    (runOnceOutcome : Except String PipelineResult)
    (saveEntryOk savePostOk : Bool) (now₁ now₂ : String) :
    Except String (Story × IterResult) :=
  let story₁ :=
    { story with
        status := "in_progress"
        attempts := story.attempts + 1
        last_updated_at := some now₁ }
  if !saveEntryOk then Except.error "PRD save failed before execution"
  else
    let result := match runOnceOutcome with
      | Except.ok r => r
      | Except.error e => syntheticErrorResult e
    let max_attempts := pyOrNat story₁.max_attempts maxAttemptsPerStory
    let story₂ := update_story_after_attempt story₁ result max_attempts now₂
    let _ := savePostOk
    Except.ok (story₂,
      { story_id := story₂.id
        story_title := story₂.title
        attempt := story₂.attempts
        result := result
        status := story₂.status })

/-- Summary dictionary returned by `run_ralph_loop`. The error-path
dictionary carries no `stories_todo`/`stories_in_progress` keys, hence the
`Option` fields. -/
structure LoopSummary where
  error : Option String
  stories_total : Nat
  stories_pass : Nat
  stories_fail : Nat
  stories_todo : Option Nat
  stories_in_progress : Option Nat
  iterations : Nat
  deriving Repr, DecidableEq

/-- Number of stories with a given status (`sum(1 for s in stories if
s.get("status") == st)`). -/
def countStatus (st : String) (stories : List Story) : Nat :=
  stories.countP (fun s => s.status == st)

/-- `run_ralph_loop` from `ralph_adapter.py`, reduced to what determines the
summary: `initOutcome` is the outcome of loading config and PRD (`.error e`
when `load_config`/`load_prd` raises), `finalStories` the backlog's stories
when the loop exits (their evolution is driven by the external pipeline),
`iters` the number of iterations executed. On an initialization error the
loop never starts and the summary carries the error and zero counts. -/
def run_ralph_loop_summary (initOutcome : Except String Unit)
    (finalStories : List Story) (iters : Nat) : LoopSummary :=
  match initOutcome with
  | Except.error e =>
    { error := some e, stories_total := 0, stories_pass := 0, stories_fail := 0,
      stories_todo := none, stories_in_progress := none, iterations := 0 }
  | Except.ok _ =>
    { error := none,
      stories_total := finalStories.length,
      stories_pass := countStatus "pass" finalStories,
      stories_fail := countStatus "fail" finalStories,
      stories_todo := some (countStatus "todo" finalStories),
      stories_in_progress := some (countStatus "in_progress" finalStories),
      iterations := iters }

/-- Process exit code computed at the end of `main`:
`sys.exit(1)` iff `result["stories_fail"] > 0`, else `sys.exit(0)`. -/
def mainExitCode (summary : LoopSummary) : Nat :=
  if summary.stories_fail > 0 then 1 else 0

/-- A user story parsed from `spec.md` by the PRD generator
(`UserStory` dataclass fields used by the merge step). -/
structure UserStory where
  id : String
  title : String
  description : String
  priority : String
  acceptance_scenarios : List String
  independent_test : String
  deriving Repr, DecidableEq

/-- First-match association lookup (a Python dict with unique keys). -/
def assocFind (m : List (String × α)) (k : String) : Option α :=
  match m with
  | [] => none
  | p :: rest => if p.1 = k then some p.2 else assocFind rest k

/-- Removal of the (first) entry with a key (Python `del map[k]`; the maps we
build keep each key at most once). -/
def assocRemove (m : List (String × α)) (k : String) : List (String × α) :=
  match m with
  | [] => []
  | p :: rest => if p.1 = k then rest else p :: assocRemove rest k

/-- Lookup with default (`map.get(k, d)`). -/
def assocGetD (m : List (String × α)) (k : String) (d : α) : α :=
  (assocFind m k).getD d

/-- Insertion preserving Python-dict semantics: re-assigning an existing key
replaces its value in place, a new key is appended. -/
def insertOrReplace (m : List (String × α)) (k : String) (v : α) : List (String × α) :=
  match m with
  | [] => [(k, v)]
  | p :: rest => if p.1 = k then (k, v) :: rest else p :: insertOrReplace rest k v

/-- The dict comprehension `{s["id"]: s for s in prd_data["stories"]}`. -/
def buildStoriesMap (stories : List Story) : List (String × Story) :=
  stories.foldl (fun m s => insertOrReplace m s.id s) []

/-- Acceptance criteria prepared for a user story: the parsed scenarios, or
the `["Verify {title}"]` fallback when none were found. -/
def acOf (us : UserStory) : List String :=
  if us.acceptance_scenarios.isEmpty then ["Verify " ++ us.title] else us.acceptance_scenarios

/-- In-place update of an existing PRD story from a freshly extracted user
story (`generate_prd`, merge step): content fields are overwritten, `tasks`
only when the extraction linked at least one task, and the loop-managed
fields `status`, `attempts`, `last_error`, `last_updated_at`, `max_attempts`
are left untouched. -/
def updateExistingStory (existing : Story) (us : UserStory) (linkedTaskIds : List String) :
    Story :=
  { existing with
      title := us.title
      description := us.description
      priority := us.priority
      acceptance_criteria := acOf us
      independent_test := us.independent_test
      tasks := if linkedTaskIds.isEmpty then existing.tasks else linkedTaskIds }

/-- Fresh PRD story created for a user story the persisted backlog does not
know (`generate_prd`, merge step). The created dict carries no
`last_updated_at`/`max_attempts` keys. -/
def newStoryOf (us : UserStory) (linkedTaskIds : List String) : Story :=
  { id := us.id
    title := us.title
    description := us.description
    priority := us.priority
    acceptance_criteria := acOf us
    independent_test := us.independent_test
    tasks := linkedTaskIds
    status := "todo"
    attempts := 0
    last_error := none
    last_updated_at := none
    max_attempts := none }

/-- Full match of `re.match(r"^US\d+$", s)`: `US` followed by one or more
digits and nothing else. -/
def isUSId (s : String) : Bool :=
  strStartsWith "US" s && !(s.drop 2).toList.isEmpty && (s.drop 2).toList.all Char.isDigit

/-- The `for user_story in user_stories` merge loop of `generate_prd`:
returns the merged stories produced so far and the map of not-yet-consumed
persisted stories. -/
def mergeLoop (map : List (String × Story)) (tasksByStory : List (String × List String)) :
    List UserStory → List Story × List (String × Story)
  | [] => ([], map)
  | us :: rest =>
    match assocFind map us.id with
    | some existing =>
      let r := mergeLoop (assocRemove map us.id) tasksByStory rest
      (updateExistingStory existing us (assocGetD tasksByStory us.id []) :: r.1, r.2)
    | none =>
      let r := mergeLoop map tasksByStory rest
      (newStoryOf us (assocGetD tasksByStory us.id []) :: r.1, r.2)

/-- Sort key of the final `merged_stories.sort(key=sort_key)` in
`generate_prd`: `priority_order = {"P1": 1, ..., "P5": 5}` with default 99,
then the numeric id. -/
def prdSortKey (s : Story) : Nat × Nat :=
  let priority_order : List (String × Nat) := [("P1", 1), ("P2", 2), ("P3", 3), ("P4", 4), ("P5", 5)]
  (assocGetD priority_order s.priority 99, idNum s.id)

/-- Lexicographic order on the PRD sort key pairs. -/
def prdLe (a b : Story) : Bool :=
  decide ((prdSortKey a).1 < (prdSortKey b).1) ||
    ((prdSortKey a).1 == (prdSortKey b).1 && decide ((prdSortKey a).2 ≤ (prdSortKey b).2))

/-- The story-merge portion of `generate_prd` (`prd_generator.py`, steps 7):
build the id-indexed map of persisted stories, fold the freshly extracted
user stories through it, append the remaining persisted stories whose id does
not match `^US\d+$`, and sort by priority then id. -/
def mergeStories (existingStories : List Story) (userStories : List UserStory)
    (tasksByStory : List (String × List String)) : List Story :=
  let map := buildStoriesMap existingStories
  let r := mergeLoop map tasksByStory userStories
  let merged := r.1 ++ (r.2.filter (fun kv => !isUSId kv.1)).map Prod.snd
  merged.mergeSort prdLe

/-- Python `s.split(sep, 1)` as the pair (before first occurrence, after it);
when `sep` does not occur the result is `(s, [])`, matching the code's
`parts[1] if len(parts) > 1 else ""`. -/
def splitFirst (sep : List Char) (l : List Char) : List Char × List Char :=
  if subAt sep l then ([], l.drop sep.length)
  else
    match l with
    | [] => ([], [])
    | c :: t =>
      let r := splitFirst sep t
      (c :: r.1, r.2)

/-- `estimate_tokens` from `context_manager.py`: `len(text) // 3`, 0 for the
empty string. -/
def estimate_tokens (text : List Char) : Nat :=
  if text.isEmpty then 0 else text.length / 3

/-- The `MODEL_CONTEXT_LIMITS` table, in dict insertion order. -/
def MODEL_CONTEXT_LIMITS : List (String × Nat) :=
  [("qwen2.5-coder:14b", 16384), ("qwen2.5-coder", 16384),
   ("llama3.1:8b", 8192), ("llama3.1", 8192),
   ("llama3.3:70b", 131072), ("llama3.3", 131072),
   ("default", 4096)]

/-- `get_model_context_limit` from `context_manager.py`: strip the provider
part before the first `/`, try an exact table lookup, then the first partial
match (`key in model_key or model_key.startswith(key.split(":")[0])`), else
the `"default"` entry. -/
def get_model_context_limit (model_name : String) : Nat :=
  let model_key :=
    if model_name.toList.contains '/' then
      String.mk ((model_name.toList.dropWhile (fun c => c ≠ '/')).drop 1)
    else model_name
  match assocFind MODEL_CONTEXT_LIMITS model_key with
  | some limit => limit
  | none =>
    match MODEL_CONTEXT_LIMITS.find? (fun kv =>
        hasSub kv.1.toList model_key.toList ||
          strStartsWith (String.mk (kv.1.toList.takeWhile (fun c => c ≠ ':'))) model_key) with
    | some kv => kv.2
    | none => (assocFind MODEL_CONTEXT_LIMITS "default").getD 0

/-- Marker appended by the simple / story-part truncation paths. -/
def ctxTruncNote : List Char := "\n\n[Context truncated due to length limits...]".toList

/-- Marker appended after a truncated specification blob. -/
def specTruncNote : List Char :=
  "\n\n[Specification context truncated due to length limits...]".toList

/-- Marker appended when the specification blob is dropped entirely. -/
def specOmitNote : List Char :=
  "\n\n[Specification context omitted due to length limits]".toList

/-- The lean-structure story marker checked first. -/
def newStoryTag : List Char := "=== CURRENT USER STORY TO IMPLEMENT ===".toList

/-- The legacy story marker. -/
def oldStoryTag : List Char := "=== CURRENT USER STORY ===".toList

/-- The legacy specification marker the legacy context is split on. -/
def oldSpecTag : List Char := "=== FULL SPECIFICATION CONTEXT ===".toList

/-- `truncate_context_intelligently` from `context_manager.py`. The
`available_tokens` floor (`max(500, ...)` after the `< 500` warning) is the
`max 500` here; the lean-structure branch is a `pass` that falls through to
the same simple tail truncation as the final fallback. Float comparisons are
modelled exactly (see the file header). -/
def truncate_context_intelligently (context : List Char) (max_tokens reserve_tokens : Nat) :
    List Char :=
  if context.isEmpty then context
  else
    let available_tokens := max 500 (max_tokens - reserve_tokens)
    let current_tokens := estimate_tokens context
    if current_tokens ≤ available_tokens then context
    else if hasSub newStoryTag context then
      context.take (available_tokens * 3) ++ ctxTruncNote
    else if hasSub oldStoryTag context && hasSub oldSpecTag context then
      let parts := splitFirst oldSpecTag context
      let story_part := parts.1
      let spec_part := parts.2
      let story_tokens := estimate_tokens story_part
      if 5 * story_tokens > 4 * available_tokens then
        story_part.take (12 * available_tokens / 5) ++ ctxTruncNote
      else if story_tokens + 200 < available_tokens then
        let spec_available := available_tokens - story_tokens - 200
        story_part ++ oldSpecTag ++ ['\n'] ++ (spec_part.take (spec_available * 3) ++ specTruncNote)
      else story_part ++ specOmitNote
    else context.take (available_tokens * 3) ++ ctxTruncNote

/-- `limit_context_for_model` from `context_manager.py`: look the model's
limit up and truncate. -/
def limit_context_for_model (context : List Char) (model_name : String)
    (reserve_tokens : Nat) : List Char :=
  if context.isEmpty then context
  else truncate_context_intelligently context (get_model_context_limit model_name) reserve_tokens

/-- The common core of all three truncation notes; an output containing it
visibly records that content was cut. -/
def truncNoteCore : List Char := "due to length limits".toList

/-- Invariant of the id-indexed story maps: each value's `id` is its key. -/
def idInv (map : List (String × Story)) : Prop :=
  ∀ p ∈ map, (p.2).id = p.1

/-- A baseline backlog story used for concrete instances. -/
def baseStory : Story :=
  { id := "US1"
    title := "Title"
    description := "Desc"
    priority := "P1"
    acceptance_criteria := []
    independent_test := ""
    tasks := []
    status := "todo"
    attempts := 0
    last_error := none
    last_updated_at := none
    max_attempts := none }

/-- A successful pipeline result (`SHIP` with passing tests). -/
def okShipResult : PipelineResult :=
  { decision := some "SHIP", tests_ok := some true, error := none, critic_reason := none }

/-- The claim C2 scenario story: `attempts = 2`, cap 3. -/
def c2Story : Story :=
  { baseStory with status := "in_progress", attempts := 2, max_attempts := some 3 }

/-- The claim C2 scenario result: `REVISE`, failing tests, a critic reason. -/
def c2Result : PipelineResult :=
  { decision := some "REVISE", tests_ok := some false, error := none,
    critic_reason := some "off-by-one in loop bound" }

/-- A persisted story whose id the fresh extraction no longer produces. -/
def c6Story : Story := { baseStory with status := "pass", attempts := 1 }

/-- A persisted story carrying runtime state and a linked task. -/
def c7Existing : Story :=
  { baseStory with tasks := ["T1"], status := "pass", attempts := 2,
                   last_error := some "old error", last_updated_at := some "T0",
                   max_attempts := some 5 }

/-- The fresh extraction of the same story id with new content. -/
def c7US : UserStory :=
  { id := "US1", title := "New title", description := "New desc", priority := "P2",
    acceptance_scenarios := ["AC1"], independent_test := "IT" }

theorem errorMsgOf_ne_empty (r : PipelineResult) : errorMsgOf r ≠ "" := by
  unfold errorMsgOf
  split
  · rename_i h
    cases he : r.error with
    | none => simp [pyStrTruthy, he] at h
    | some e =>
      simp only [he, Option.getD_some]
      intro hcontra
      subst hcontra
      simp [pyStrTruthy, he] at h
      exact absurd h (by decide)
  · split
    · split
      · intro h
        have hl := congrArg String.length h
        simp [String.length_append] at hl
        exact absurd hl.1.1.1 (by decide)
      · intro h
        have hl := congrArg String.length h
        simp [String.length_append] at hl
        exact absurd hl.1 (by decide)
    · split
      · decide
      · decide

theorem tupLe_refl (k : Nat × Nat × Nat × Nat) : tupLe k k = true := by
  simp [tupLe]

theorem tupLe_trans (a b c : Nat × Nat × Nat × Nat) :
    tupLe a b = true → tupLe b c = true → tupLe a c = true := by
  simp only [tupLe, Bool.or_eq_true, Bool.and_eq_true, decide_eq_true_eq, beq_iff_eq]
  omega

theorem tupLe_total (a b : Nat × Nat × Nat × Nat) :
    (tupLe a b || tupLe b a) = true := by
  simp only [tupLe, Bool.or_eq_true, Bool.and_eq_true, decide_eq_true_eq, beq_iff_eq]
  omega

theorem select_next_story_sound (stories : List Story) (maxPer : Option Nat)
    (force : Bool) (sel : Story)
    (h : select_next_story stories maxPer none force = some sel) :
    sel ∈ stories ∧ storyEligible sel maxPer force = true ∧
      ∀ s ∈ stories, storyEligible s maxPer force = true → storyLe sel s = true := by
  unfold select_next_story at h
  simp only at h
  set elig := stories.filter (fun s => storyEligible s maxPer force) with helig
  have hmemSel : sel ∈ elig.mergeSort storyLe := by
    cases hsort : elig.mergeSort storyLe with
    | nil => rw [hsort] at h; simp at h
    | cons hd tl =>
      rw [hsort] at h
      simp only [List.head?] at h
      cases h
      exact List.mem_cons_self _ _
  have hselElig : sel ∈ elig := List.mem_mergeSort.mp hmemSel
  have hselStories : sel ∈ stories := (List.mem_filter.mp hselElig).1
  have hselOk : storyEligible sel maxPer force = true := (List.mem_filter.mp hselElig).2
  refine ⟨hselStories, hselOk, ?_⟩
  intro s hs hsOk
  have hsElig : s ∈ elig := List.mem_filter.mpr ⟨hs, hsOk⟩
  have hsSorted : s ∈ elig.mergeSort storyLe := List.mem_mergeSort.mpr hsElig
  have hpair := @List.sorted_mergeSort Story storyLe
    (fun a b c => tupLe_trans (storySortKey a) (storySortKey b) (storySortKey c))
    (fun a b => tupLe_total (storySortKey a) (storySortKey b)) elig
  cases hsort : elig.mergeSort storyLe with
  | nil => rw [hsort] at hsSorted; simp at hsSorted
  | cons hd tl =>
    rw [hsort] at h hsSorted hpair
    simp only [List.head?] at h
    cases h
    rcases List.mem_cons.mp hsSorted with heq | htl
    · rw [heq]; exact tupLe_refl _
    · exact (List.pairwise_cons.mp hpair).1 s htl

theorem select_next_story_complete (stories : List Story) (maxPer : Option Nat)
    (force : Bool)
    (h : ∃ s ∈ stories, storyEligible s maxPer force = true) :
    ∃ sel, select_next_story stories maxPer none force = some sel := by
  unfold select_next_story
  simp only
  obtain ⟨s, hs, hsOk⟩ := h
  have hsElig : s ∈ stories.filter (fun s => storyEligible s maxPer force) :=
    List.mem_filter.mpr ⟨hs, hsOk⟩
  have : s ∈ (stories.filter (fun s => storyEligible s maxPer force)).mergeSort storyLe :=
    List.mem_mergeSort.mpr hsElig
  cases hsort : (stories.filter (fun s => storyEligible s maxPer force)).mergeSort storyLe with
  | nil => rw [hsort] at this; simp at this
  | cons hd tl => exact ⟨hd, rfl⟩

theorem assocFind_nil {α : Type} (k : String) : assocFind ([] : List (String × α)) k = none := rfl

theorem assocFind_cons {α : Type} (q : String × α) (rest : List (String × α)) (k : String) :
    assocFind (q :: rest) k = if q.1 = k then some q.2 else assocFind rest k := rfl

theorem assocRemove_nil {α : Type} (k : String) : assocRemove ([] : List (String × α)) k = [] := rfl

theorem assocRemove_cons {α : Type} (q : String × α) (rest : List (String × α)) (k : String) :
    assocRemove (q :: rest) k = if q.1 = k then rest else q :: assocRemove rest k := rfl

theorem insertOrReplace_nil {α : Type} (k : String) (v : α) :
    insertOrReplace ([] : List (String × α)) k v = [(k, v)] := rfl

theorem insertOrReplace_cons {α : Type} (q : String × α) (rest : List (String × α)) (k : String) (v : α) :
    insertOrReplace (q :: rest) k v =
      if q.1 = k then (k, v) :: rest else q :: insertOrReplace rest k v := rfl

theorem assocFind_mem {α : Type} {m : List (String × α)} {k : String} {v : α}
    (h : assocFind m k = some v) : (k, v) ∈ m := by
  induction m with
  | nil => simp [assocFind_nil] at h
  | cons q rest ih =>
    obtain ⟨q1, q2⟩ := q
    rw [assocFind_cons] at h
    by_cases hk : q1 = k
    · simp only [hk, if_pos rfl] at h
      simp at h
      subst hk
      rw [h]
      exact List.mem_cons_self _ _
    · simp only [if_neg hk] at h
      exact List.mem_cons_of_mem _ (ih h)

theorem assocRemove_subset {α : Type} {m : List (String × α)} {k : String} :
    ∀ p ∈ assocRemove m k, p ∈ m := by
  induction m with
  | nil => simp [assocRemove_nil]
  | cons q rest ih =>
    intro p hp
    rw [assocRemove_cons] at hp
    by_cases hk : q.1 = k
    · rw [if_pos hk] at hp
      exact List.mem_cons_of_mem _ hp
    · rw [if_neg hk] at hp
      rcases List.mem_cons.mp hp with hp | hp
      · exact hp ▸ List.mem_cons_self _ _
      · exact List.mem_cons_of_mem _ (ih p hp)

theorem assocFind_assocRemove_of_ne {α : Type} {m : List (String × α)} {k kr : String}
    (h : k ≠ kr) : assocFind (assocRemove m kr) k = assocFind m k := by
  induction m with
  | nil => rfl
  | cons q rest ih =>
    rw [assocRemove_cons, assocFind_cons]
    by_cases hk : q.1 = kr
    · rw [if_pos hk]
      have hqk : ¬ q.1 = k := by rw [hk]; exact fun hc => h hc.symm
      rw [if_neg hqk]
    · rw [if_neg hk, assocFind_cons, ih]

theorem assocFind_insertOrReplace_self {α : Type} (m : List (String × α)) (k : String) (v : α) :
    assocFind (insertOrReplace m k v) k = some v := by
  induction m with
  | nil => rw [insertOrReplace_nil, assocFind_cons]; simp
  | cons q rest ih =>
    rw [insertOrReplace_cons]
    by_cases hk : q.1 = k
    · rw [if_pos hk, assocFind_cons]; simp
    · rw [if_neg hk, assocFind_cons, if_neg hk, ih]

theorem assocFind_insertOrReplace_ne {α : Type} (m : List (String × α)) {k k' : String} (v : α)
    (h : k' ≠ k) : assocFind (insertOrReplace m k v) k' = assocFind m k' := by
  have hkk : ¬ k = k' := fun hc => h hc.symm
  induction m with
  | nil => rw [insertOrReplace_nil, assocFind_cons, if_neg hkk, assocFind_nil]
  | cons q rest ih =>
    rw [insertOrReplace_cons]
    by_cases hk : q.1 = k
    · have hq : ¬ q.1 = k' := by rw [hk]; exact hkk
      rw [if_pos hk, assocFind_cons, if_neg hkk, assocFind_cons, if_neg hq]
    · rw [if_neg hk, assocFind_cons, assocFind_cons, ih]

theorem insertOrReplace_mem {α : Type} {m : List (String × α)} {k : String} {v : α} :
    ∀ p ∈ insertOrReplace m k v, p = (k, v) ∨ p ∈ m := by
  induction m with
  | nil =>
    intro p hp
    rw [insertOrReplace_nil] at hp
    exact Or.inl (List.mem_singleton.mp hp)
  | cons q rest ih =>
    intro p hp
    rw [insertOrReplace_cons] at hp
    by_cases hk : q.1 = k
    · rw [if_pos hk] at hp
      rcases List.mem_cons.mp hp with hp | hp
      · exact Or.inl hp
      · exact Or.inr (List.mem_cons_of_mem _ hp)
    · rw [if_neg hk] at hp
      rcases List.mem_cons.mp hp with hp | hp
      · exact Or.inr (hp ▸ List.mem_cons_self _ _)
      · rcases ih p hp with h1 | h1
        · exact Or.inl h1
        · exact Or.inr (List.mem_cons_of_mem _ h1)

theorem idInv_assocRemove {map : List (String × Story)} {k : String} (h : idInv map) :
    idInv (assocRemove map k) :=
  fun p hp => h p (assocRemove_subset p hp)

theorem buildStoriesMap_idInv (stories : List Story) : idInv (buildStoriesMap stories) := by
  unfold buildStoriesMap
  suffices h : ∀ (l : List Story) (acc : List (String × Story)), idInv acc →
      idInv (l.foldl (fun m s => insertOrReplace m s.id s) acc) by
    refine h stories [] ?_
    intro p hp
    simp at hp
  intro l
  induction l with
  | nil => intro acc hacc; exact hacc
  | cons a t ih =>
    intro acc hacc
    simp only [List.foldl_cons]
    refine ih _ ?_
    intro p hp
    rcases insertOrReplace_mem p hp with h1 | h1
    · rw [h1]
    · exact hacc p h1

theorem buildStoriesMap_containsKey {stories : List Story} {s : Story} (h : s ∈ stories) :
    (assocFind (buildStoriesMap stories) s.id).isSome := by
  unfold buildStoriesMap
  suffices hgen : ∀ (l : List Story) (acc : List (String × Story)),
      s ∈ l ∨ (assocFind acc s.id).isSome = true →
      (assocFind (l.foldl (fun m s => insertOrReplace m s.id s) acc) s.id).isSome = true by
    exact hgen stories [] (Or.inl h)
  intro l
  induction l with
  | nil =>
    intro acc hacc
    rcases hacc with hacc | hacc
    · simp at hacc
    · exact hacc
  | cons a t ih =>
    intro acc hacc
    simp only [List.foldl_cons]
    by_cases heq : s.id = a.id
    · refine ih _ (Or.inr ?_)
      rw [heq, assocFind_insertOrReplace_self]
      rfl
    · rcases hacc with hacc | hacc
      · rcases List.mem_cons.mp hacc with h1 | h1
        · exact absurd (h1 ▸ rfl) heq
        · exact ih _ (Or.inl h1)
      · refine ih _ (Or.inr ?_)
        rw [assocFind_insertOrReplace_ne _ _ heq]
        exact hacc

theorem mergeLoop_key_covered (tasksByStory : List (String × List String)) :
    ∀ (uss : List UserStory) (map : List (String × Story)) (k : String),
      idInv map → (assocFind map k).isSome = true →
      (∃ m ∈ (mergeLoop map tasksByStory uss).1, m.id = k) ∨
        ∃ v, (k, v) ∈ (mergeLoop map tasksByStory uss).2 ∧ v.id = k := by
  intro uss
  induction uss with
  | nil =>
    intro map k hinv hsome
    right
    cases hfind : assocFind map k with
    | none => rw [hfind] at hsome; simp at hsome
    | some v =>
      have hmem := assocFind_mem hfind
      exact ⟨v, by simpa [mergeLoop] using hmem, hinv _ hmem⟩
  | cons us rest ih =>
    intro map k hinv hsome
    by_cases hk : us.id = k
    · cases hfind : assocFind map us.id with
      | none =>
        rw [← hk, hfind] at hsome
        simp at hsome
      | some ex =>
        left
        have hexid : ex.id = k := by
          have := hinv _ (assocFind_mem hfind)
          simpa [hk] using this
        refine ⟨updateExistingStory ex us (assocGetD tasksByStory us.id []), ?_, hexid⟩
        simp only [mergeLoop, hfind]
        exact List.mem_cons_self _ _
    · cases hfind : assocFind map us.id with
      | none =>
        rcases ih map k hinv hsome with ⟨m, hm, hid⟩ | ⟨v, hv, hid⟩
        · exact Or.inl ⟨m, by simp only [mergeLoop, hfind]; exact List.mem_cons_of_mem _ hm, hid⟩
        · exact Or.inr ⟨v, by simp only [mergeLoop, hfind]; exact hv, hid⟩
      | some ex =>
        have hne : k ≠ us.id := fun hc => hk hc.symm
        have hsome2 : (assocFind (assocRemove map us.id) k).isSome = true := by
          rw [assocFind_assocRemove_of_ne hne]; exact hsome
        rcases ih (assocRemove map us.id) k (idInv_assocRemove hinv) hsome2 with
          ⟨m, hm, hid⟩ | ⟨v, hv, hid⟩
        · exact Or.inl ⟨m, by simp only [mergeLoop, hfind]; exact List.mem_cons_of_mem _ hm, hid⟩
        · exact Or.inr ⟨v, by simp only [mergeLoop, hfind]; exact hv, hid⟩

theorem mergeLoop_covers_userStory (tasksByStory : List (String × List String)) :
    ∀ (uss : List UserStory) (map : List (String × Story)) (us : UserStory),
      us ∈ uss → idInv map →
      ∃ m ∈ (mergeLoop map tasksByStory uss).1, m.id = us.id := by
  intro uss
  induction uss with
  | nil => intro map us hmem; simp at hmem
  | cons u rest ih =>
    intro map us hmem hinv
    rcases List.mem_cons.mp hmem with heq | hmem
    · subst heq
      cases hfind : assocFind map us.id with
      | some ex =>
        have hexid : ex.id = us.id := hinv _ (assocFind_mem hfind)
        refine ⟨updateExistingStory ex us (assocGetD tasksByStory us.id []), ?_, hexid⟩
        simp only [mergeLoop, hfind]
        exact List.mem_cons_self _ _
      | none =>
        refine ⟨newStoryOf us (assocGetD tasksByStory us.id []), ?_, rfl⟩
        simp only [mergeLoop, hfind]
        exact List.mem_cons_self _ _
    · cases hfind : assocFind map u.id with
      | some ex =>
        obtain ⟨m, hm, hid⟩ := ih (assocRemove map u.id) us hmem (idInv_assocRemove hinv)
        exact ⟨m, by simp only [mergeLoop, hfind]; exact List.mem_cons_of_mem _ hm, hid⟩
      | none =>
        obtain ⟨m, hm, hid⟩ := ih map us hmem hinv
        exact ⟨m, by simp only [mergeLoop, hfind]; exact List.mem_cons_of_mem _ hm, hid⟩

theorem mem_mergeStories_of_loopFst {existingStories : List Story}
    {userStories : List UserStory} {tasksByStory : List (String × List String)} {m : Story}
    (h : m ∈ (mergeLoop (buildStoriesMap existingStories) tasksByStory userStories).1) :
    m ∈ mergeStories existingStories userStories tasksByStory := by
  unfold mergeStories
  simp only
  exact List.mem_mergeSort.mpr (List.mem_append_left _ h)

theorem mem_mergeStories_of_loopSnd {existingStories : List Story}
    {userStories : List UserStory} {tasksByStory : List (String × List String)}
    {k : String} {v : Story}
    (h : (k, v) ∈ (mergeLoop (buildStoriesMap existingStories) tasksByStory userStories).2)
    (hUS : isUSId k = false) :
    v ∈ mergeStories existingStories userStories tasksByStory := by
  unfold mergeStories
  simp only
  refine List.mem_mergeSort.mpr (List.mem_append_right _ ?_)
  refine List.mem_map.mpr ⟨(k, v), ?_, rfl⟩
  refine List.mem_filter.mpr ⟨h, ?_⟩
  simp [hUS]

theorem foldl_insert_preserves {l : List Story} {acc : List (String × Story)} {k : String}
    {v : Story} (hfind : assocFind acc k = some v) (hne : ∀ a ∈ l, a.id ≠ k) :
    assocFind (l.foldl (fun m s => insertOrReplace m s.id s) acc) k = some v := by
  induction l generalizing acc with
  | nil => exact hfind
  | cons a t ih =>
    simp only [List.foldl_cons]
    refine ih ?_ (fun b hb => hne b (List.mem_cons_of_mem _ hb))
    have hka : k ≠ a.id := fun hc => hne a (List.mem_cons_self _ _) hc.symm
    rw [assocFind_insertOrReplace_ne _ _ hka]
    exact hfind

theorem foldl_insert_find {l : List Story} {s : Story}
    (hmem : s ∈ l) (hnd : (l.map Story.id).Nodup) :
    ∀ acc : List (String × Story),
      assocFind (l.foldl (fun m s => insertOrReplace m s.id s) acc) s.id = some s := by
  induction l generalizing s with
  | nil => simp at hmem
  | cons a t ih =>
    intro acc
    have hanot : a.id ∉ t.map Story.id := (List.nodup_cons.mp (by simpa using hnd)).1
    have hnd2 : (t.map Story.id).Nodup := (List.nodup_cons.mp (by simpa using hnd)).2
    simp only [List.foldl_cons]
    rcases List.mem_cons.mp hmem with heq | hmem2
    · subst heq
      refine foldl_insert_preserves (assocFind_insertOrReplace_self _ _ _) ?_
      intro b hb hc
      exact hanot (hc ▸ List.mem_map_of_mem Story.id hb)
    · exact ih hmem2 hnd2 _

theorem buildStoriesMap_find_of_nodup {stories : List Story} {s : Story}
    (hmem : s ∈ stories) (hnd : (stories.map Story.id).Nodup) :
    assocFind (buildStoriesMap stories) s.id = some s :=
  foldl_insert_find hmem hnd []

theorem mergeLoop_emits_update (tasksByStory : List (String × List String)) :
    ∀ (uss : List UserStory) (map : List (String × Story)) (us : UserStory) (s : Story),
      us ∈ uss → (uss.map UserStory.id).Nodup → assocFind map us.id = some s →
      updateExistingStory s us (assocGetD tasksByStory us.id []) ∈
        (mergeLoop map tasksByStory uss).1 := by
  intro uss
  induction uss with
  | nil => intro map us s hmem; simp at hmem
  | cons u rest ih =>
    intro map us s hmem hnd hfind
    have hunot : u.id ∉ rest.map UserStory.id := (List.nodup_cons.mp (by simpa using hnd)).1
    have hnd2 : (rest.map UserStory.id).Nodup := (List.nodup_cons.mp (by simpa using hnd)).2
    rcases List.mem_cons.mp hmem with heq | hmem2
    · subst heq
      simp only [mergeLoop, hfind]
      exact List.mem_cons_self _ _
    · have hne : us.id ≠ u.id := by
        intro hc
        exact hunot (hc ▸ List.mem_map_of_mem UserStory.id hmem2)
      cases hfindu : assocFind map u.id with
      | some ex =>
        have hfind2 : assocFind (assocRemove map u.id) us.id = some s := by
          rw [assocFind_assocRemove_of_ne hne]
          exact hfind
        simp only [mergeLoop, hfindu]
        exact List.mem_cons_of_mem _ (ih (assocRemove map u.id) us s hmem2 hnd2 hfind2)
      | none =>
        simp only [mergeLoop, hfindu]
        exact List.mem_cons_of_mem _ (ih map us s hmem2 hnd2 hfind)

theorem estimate_tokens_eq (l : List Char) : estimate_tokens l = l.length / 3 := by
  cases l with
  | nil => rfl
  | cons c t => rfl

theorem ctxTruncNote_split :
    ctxTruncNote = "\n\n[Context truncated ".toList ++ truncNoteCore ++ "...]".toList := by
  decide

theorem specTruncNote_split :
    specTruncNote =
      "\n\n[Specification context truncated ".toList ++ truncNoteCore ++ "...]".toList := by
  decide

theorem specOmitNote_split :
    specOmitNote = "\n\n[Specification context omitted ".toList ++ truncNoteCore ++ "]".toList := by
  decide

theorem simpleTruncShape_ok (x : List Char) (b : Nat) :
    (∃ l r, x.take (b * 3) ++ ctxTruncNote = l ++ truncNoteCore ++ r) ∧
      estimate_tokens (x.take (b * 3) ++ ctxTruncNote) ≤ b + 15 := by
  constructor
  · refine ⟨x.take (b * 3) ++ "\n\n[Context truncated ".toList, "...]".toList, ?_⟩
    rw [ctxTruncNote_split]
    simp [List.append_assoc]
  · rw [estimate_tokens_eq, List.length_append, List.length_take]
    have h45 : ctxTruncNote.length = 45 := by decide
    rw [h45]
    have hm : (b * 3) ⊓ x.length ≤ b * 3 := min_le_left _ _
    omega

theorem truncate_unchanged (context : List Char) (mt rt : Nat)
    (h : estimate_tokens context ≤ max 500 (mt - rt)) :
    truncate_context_intelligently context mt rt = context := by
  unfold truncate_context_intelligently
  cases hc : context.isEmpty with
  | true => simp
  | false =>
    simp only [hc, Bool.false_eq_true, if_false]
    rw [if_pos h]

theorem truncate_over_budget (context : List Char) (mt rt : Nat)
    (h : max 500 (mt - rt) < estimate_tokens context) :
    (∃ l r, truncate_context_intelligently context mt rt = l ++ truncNoteCore ++ r) ∧
      estimate_tokens (truncate_context_intelligently context mt rt) ≤
        max 500 (mt - rt) + 15 := by
  have hb500 : 500 ≤ max 500 (mt - rt) := le_max_left _ _
  have hnonempty : context.isEmpty = false := by
    cases hc : context.isEmpty with
    | false => rfl
    | true =>
      rw [List.isEmpty_iff] at hc
      rw [hc] at h
      simp [estimate_tokens] at h
  unfold truncate_context_intelligently
  simp only [hnonempty, Bool.false_eq_true, if_false]
  rw [if_neg (Nat.not_le.mpr h)]
  by_cases h1 : hasSub newStoryTag context = true
  · rw [if_pos h1]
    exact simpleTruncShape_ok context _
  · rw [if_neg h1]
    by_cases h2 : (hasSub oldStoryTag context && hasSub oldSpecTag context) = true
    · rw [if_pos h2]
      by_cases h3 : 5 * estimate_tokens (splitFirst oldSpecTag context).1 >
          4 * max 500 (mt - rt)
      · rw [if_pos h3]
        constructor
        · refine ⟨(splitFirst oldSpecTag context).1.take (12 * max 500 (mt - rt) / 5) ++
            "\n\n[Context truncated ".toList, "...]".toList, ?_⟩
          rw [ctxTruncNote_split]
          simp [List.append_assoc]
        · rw [estimate_tokens_eq, List.length_append, List.length_take]
          have h45 : ctxTruncNote.length = 45 := by decide
          rw [h45]
          have hm : (12 * max 500 (mt - rt) / 5) ⊓ (splitFirst oldSpecTag context).1.length ≤
              12 * max 500 (mt - rt) / 5 := min_le_left _ _
          omega
      · rw [if_neg h3]
        by_cases h4 : estimate_tokens (splitFirst oldSpecTag context).1 + 200 <
            max 500 (mt - rt)
        · rw [if_pos h4]
          constructor
          · refine ⟨(splitFirst oldSpecTag context).1 ++ oldSpecTag ++ ['\n'] ++
              ((splitFirst oldSpecTag context).2.take
                ((max 500 (mt - rt) - estimate_tokens (splitFirst oldSpecTag context).1 - 200) * 3) ++
                "\n\n[Specification context truncated ".toList), "...]".toList, ?_⟩
            rw [specTruncNote_split]
            simp [List.append_assoc]
          · simp only [estimate_tokens_eq] at h3 h4 ⊢
            simp only [List.length_append, List.length_take, List.length_cons,
              List.length_nil]
            have h59 : specTruncNote.length = 59 := by decide
            have h34 : oldSpecTag.length = 34 := by decide
            rw [h59, h34]
            have hm : ((max 500 (mt - rt) - (splitFirst oldSpecTag context).1.length / 3 - 200) * 3) ⊓
                (splitFirst oldSpecTag context).2.length ≤
                (max 500 (mt - rt) - (splitFirst oldSpecTag context).1.length / 3 - 200) * 3 :=
              min_le_left _ _
            omega
        · rw [if_neg h4]
          constructor
          · refine ⟨(splitFirst oldSpecTag context).1 ++
              "\n\n[Specification context omitted ".toList, "]".toList, ?_⟩
            rw [specOmitNote_split]
            simp [List.append_assoc]
          · rw [estimate_tokens_eq] at h3 h4 ⊢
            rw [List.length_append]
            have h54 : specOmitNote.length = 54 := by decide
            rw [h54]
            omega
    · rw [if_neg h2]
      exact simpleTruncShape_ok context _

/-- C1: one `run_ralph_iteration` on a story with `attempts = 0` leaves
`attempts = 2`, not 1: the counter is incremented at entry AND a second time
inside `update_story_after_attempt`, contradicting the claim that the
post-execution state transition does not increment it again. -/
theorem claim1_attempts_incremented_twice :
    baseStory.attempts = 0 ∧
      (run_ralph_iteration baseStory none (Except.ok okShipResult) true true "t1" "t2").map
        (fun out => out.1.attempts) = Except.ok 2 := by
  exact ⟨rfl, rfl⟩

/-- C2: `update_story_after_attempt` applied to a story with `attempts = 2`
and effective cap 3 on the `REVISE` result yields `status = "fail"` (the
function increments `attempts` to 3, which reaches the cap), not
`"in_progress"` as the claim states; the `last_error` it states is correct. -/
theorem claim2_revise_scenario_fails :
    (update_story_after_attempt c2Story c2Result (some 3) "T").status = "fail" ∧
      (update_story_after_attempt c2Story c2Result (some 3) "T").status ≠ "in_progress" ∧
      (update_story_after_attempt c2Story c2Result (some 3) "T").last_error =
        some "Agent decision: REVISE - off-by-one in loop bound" := by
  refine ⟨rfl, ?_, rfl⟩
  decide

theorem update_story_after_attempt_eq (story : Story) (result : PipelineResult)
    (cap : Option Nat) (now : String) :
    update_story_after_attempt story result cap now =
      if resultSuccess result then
        { story with attempts := story.attempts + 1, last_updated_at := some now,
                     status := "pass", last_error := none }
      else if capReached cap (story.attempts + 1) then
        { story with attempts := story.attempts + 1, last_updated_at := some now,
                     status := "fail", last_error := some (errorMsgOf result) }
      else
        { story with attempts := story.attempts + 1, last_updated_at := some now,
                     status := "in_progress", last_error := some (errorMsgOf result) } := rfl

/-- C10: after `update_story_after_attempt` the status is one of `pass`,
`in_progress`, `fail`; it is `pass` exactly when `last_error` is `None`; and
otherwise `last_error` is a non-empty string. -/
theorem claim10_status_last_error_invariant :
    ∀ (story : Story) (result : PipelineResult) (cap : Option Nat) (now : String),
      ((update_story_after_attempt story result cap now).status = "pass" ∨
        (update_story_after_attempt story result cap now).status = "in_progress" ∨
        (update_story_after_attempt story result cap now).status = "fail") ∧
      ((update_story_after_attempt story result cap now).status = "pass" ↔
        (update_story_after_attempt story result cap now).last_error = none) ∧
      ((update_story_after_attempt story result cap now).status = "pass" ∨
        ∃ e, (update_story_after_attempt story result cap now).last_error = some e ∧
          e ≠ "") := by
  intro story result cap now
  rw [update_story_after_attempt_eq]
  split_ifs
  · exact ⟨Or.inl rfl, by simp, Or.inl rfl⟩
  · refine ⟨Or.inr (Or.inr rfl), ?_,
      Or.inr ⟨errorMsgOf result, rfl, errorMsgOf_ne_empty result⟩⟩
    constructor
    · intro hc; simp at hc
    · intro hc; simp at hc
  · refine ⟨Or.inr (Or.inl rfl), ?_,
      Or.inr ⟨errorMsgOf result, rfl, errorMsgOf_ne_empty result⟩⟩
    constructor
    · intro hc; simp at hc
    · intro hc; simp at hc

/-- C3 counterexample: when the unguarded `_save_prd` before execution fails,
`run_ralph_iteration` does propagate the exception to its caller, refuting
the claim that a persistence failure anywhere during the iteration is merely
logged. -/
theorem claim3_counterexample :
    run_ralph_iteration baseStory none (Except.ok okShipResult) false true "t1" "t2" =
      Except.error "PRD save failed before execution" := rfl

/-- C3 (amended): once the entry persist succeeds, `run_ralph_iteration`
always returns normally; a `run_once` exception is converted into the
synthetic `ERROR`/`tests_ok=False` result; and a failure of the post-
execution persist does not change the returned state (execution continues on
the in-memory state). -/
theorem claim3_pipeline_exceptions_contained :
    ∀ (story : Story) (maxPer : Option Nat) (outcome : Except String PipelineResult)
      (savePostOk : Bool) (n₁ n₂ : String),
      (∃ out, run_ralph_iteration story maxPer outcome true savePostOk n₁ n₂ =
        Except.ok out) ∧
      (∀ e, outcome = Except.error e →
        ∀ out, run_ralph_iteration story maxPer outcome true savePostOk n₁ n₂ =
          Except.ok out →
          out.2.result = syntheticErrorResult e ∧
            out.2.result.decision = some "ERROR" ∧ out.2.result.tests_ok = some false) ∧
      run_ralph_iteration story maxPer outcome true savePostOk n₁ n₂ =
        run_ralph_iteration story maxPer outcome true true n₁ n₂ := by
  intro story maxPer outcome savePostOk n₁ n₂
  refine ⟨⟨_, rfl⟩, ?_, rfl⟩
  intro e he out hout
  subst he
  injection hout with h
  subst h
  exact ⟨rfl, rfl, rfl⟩

/-- C3 witness: a concrete pipeline exception is contained and converted. -/
theorem claim3_witness :
    ∃ out, run_ralph_iteration baseStory none (Except.error "boom") true false "t1" "t2" =
      Except.ok out ∧ out.2.result = syntheticErrorResult "boom" := by
  obtain ⟨out, hout⟩ :=
    (claim3_pipeline_exceptions_contained baseStory none (Except.error "boom") false "t1" "t2").1
  exact ⟨out, hout,
    ((claim3_pipeline_exceptions_contained baseStory none (Except.error "boom") false
      "t1" "t2").2.1 "boom" rfl out hout).1⟩

/-- C4: without a target, `select_next_story` returns an eligible story of
the backlog whose sort key (status rank, numeric priority, numeric id,
attempts) is lexicographically minimal among all eligible stories; repeated
calls with identical arguments return the identical story; and of two `todo`
stories differing only in priority `P1` vs `P2`, the `P1` story is selected
first, whichever order the backlog lists them in. -/
theorem claim4_scheduler_order :
    (∀ (stories : List Story) (maxPer : Option Nat) (force : Bool) (sel : Story),
      select_next_story stories maxPer none force = some sel →
      sel ∈ stories ∧ storyEligible sel maxPer force = true ∧
        ∀ s ∈ stories, storyEligible s maxPer force = true → storyLe sel s = true) ∧
    (∀ (stories : List Story) (maxPer : Option Nat) (force : Bool),
      select_next_story stories maxPer none force =
        select_next_story stories maxPer none force) ∧
    (∀ (s : Story) (maxPer : Option Nat),
      s.status = "todo" → s.priority = "P1" → storyEligible s maxPer false = true →
      select_next_story [s, { s with priority := "P2" }] maxPer none false = some s ∧
      select_next_story [{ s with priority := "P2" }, s] maxPer none false = some s) := by
  refine ⟨fun stories maxPer force sel h => select_next_story_sound stories maxPer force sel h,
    fun _ _ _ => rfl, ?_⟩
  intro s maxPer hstat hprio helig
  have h2elig : storyEligible { s with priority := "P2" } maxPer false = true := helig
  have hp1 : priorityNum s.priority = 1 := by rw [hprio]; decide
  have hp2 : priorityNum ({ s with priority := "P2" } : Story).priority = 2 := by
    have hproj : ({ s with priority := "P2" } : Story).priority = "P2" := rfl
    rw [hproj]
    decide
  have hkey : storyLe { s with priority := "P2" } s = false := by
    unfold storyLe storySortKey tupLe
    have hss : ({ s with priority := "P2" } : Story).status = s.status := rfl
    have hsi : ({ s with priority := "P2" } : Story).id = s.id := rfl
    have hsa : ({ s with priority := "P2" } : Story).attempts = s.attempts := rfl
    rw [hss, hsi, hsa, hp1, hp2]
    simp
  constructor
  · obtain ⟨sel, hsel⟩ := select_next_story_complete [s, { s with priority := "P2" }]
      maxPer false ⟨s, List.mem_cons_self _ _, helig⟩
    obtain ⟨hmem, _, hmin⟩ := select_next_story_sound _ _ _ _ hsel
    rcases List.mem_cons.mp hmem with heq | hmem2
    · rw [heq] at hsel; exact hsel
    · have heq2 : sel = { s with priority := "P2" } := List.mem_singleton.mp hmem2
      have := hmin s (List.mem_cons_self _ _) helig
      rw [heq2, hkey] at this
      exact absurd this (by simp)
  · obtain ⟨sel, hsel⟩ := select_next_story_complete [{ s with priority := "P2" }, s]
      maxPer false ⟨s, List.mem_cons_of_mem _ (List.mem_singleton.mpr rfl), helig⟩
    obtain ⟨hmem, _, hmin⟩ := select_next_story_sound _ _ _ _ hsel
    rcases List.mem_cons.mp hmem with heq | hmem2
    · have := hmin s (List.mem_cons_of_mem _ (List.mem_singleton.mpr rfl)) helig
      rw [heq, hkey] at this
      exact absurd this (by simp)
    · have heq2 : sel = s := List.mem_singleton.mp hmem2
      rw [heq2] at hsel; exact hsel

/-- C4 witness: on a concrete two-story backlog the `P1` story is selected. -/
theorem claim4_witness :
    select_next_story [baseStory, { baseStory with priority := "P2" }] none none false =
      some baseStory :=
  (claim4_scheduler_order.2.2 baseStory none rfl rfl (by decide)).1

/-- C5: a story whose `attempts` equal its effective attempt cap is never
selected without force or an explicit target; one with `attempts = cap - 1`
is selected when otherwise eligible (here: as the only story of the
backlog); and a `pass` story is never selected when `force` is false. -/
theorem claim5_cap_boundary :
    (∀ (stories : List Story) (maxPer : Option Nat) (s : Story) (c : Nat),
      effectiveCap s maxPer = some c → s.attempts = c →
      select_next_story stories maxPer none false ≠ some s) ∧
    (∀ (s : Story) (maxPer : Option Nat) (c : Nat),
      effectiveCap s maxPer = some c → s.attempts = c - 1 → s.status ≠ "pass" →
      select_next_story [s] maxPer none false = some s) ∧
    (∀ (stories : List Story) (maxPer : Option Nat) (s : Story),
      s.status = "pass" → select_next_story stories maxPer none false ≠ some s) := by
  have capFacts : ∀ (s : Story) (maxPer : Option Nat) (c : Nat),
      effectiveCap s maxPer = some c →
      pyOrNat s.max_attempts maxPer = some c ∧ c ≠ 0 := by
    intro s maxPer c hcap
    unfold effectiveCap at hcap
    by_cases ht : pyNatTruthy (pyOrNat s.max_attempts maxPer) = true
    · rw [if_pos ht] at hcap
      refine ⟨hcap, ?_⟩
      rw [hcap] at ht
      simpa [pyNatTruthy] using ht
    · rw [if_neg ht] at hcap
      exact absurd hcap (by simp)
  refine ⟨?_, ?_, ?_⟩
  · intro stories maxPer s c hcap hatt hsel
    obtain ⟨hor, hc0⟩ := capFacts s maxPer c hcap
    obtain ⟨_, helig, _⟩ := select_next_story_sound _ _ _ _ hsel
    have hreach : capReached (pyOrNat s.max_attempts maxPer) s.attempts = true := by
      rw [hor, hatt]
      simp [capReached, pyNatTruthy, hc0]
    rw [storyEligible, hreach] at helig
    simp at helig
  · intro s maxPer c hcap hatt hpass
    obtain ⟨hor, hc0⟩ := capFacts s maxPer c hcap
    have hreach : capReached (pyOrNat s.max_attempts maxPer) s.attempts = false := by
      rw [hor, hatt]
      simp only [capReached, pyNatTruthy, Option.getD_some]
      have : ¬ (c ≤ c - 1) := by omega
      simp [this]
    have helig : storyEligible s maxPer false = true := by
      rw [storyEligible, hreach]
      simp [hpass]
    obtain ⟨sel, hsel⟩ := select_next_story_complete [s] maxPer false
      ⟨s, List.mem_singleton.mpr rfl, helig⟩
    obtain ⟨hmem, _, _⟩ := select_next_story_sound _ _ _ _ hsel
    rw [List.mem_singleton.mp hmem] at hsel
    exact hsel
  · intro stories maxPer s hpass hsel
    obtain ⟨_, helig, _⟩ := select_next_story_sound _ _ _ _ hsel
    rw [storyEligible, hpass] at helig
    simp at helig

/-- C5 witness: concrete boundary stories at the cap, one below it, and a
`pass` story. -/
theorem claim5_witness :
    select_next_story [{ baseStory with attempts := 3, max_attempts := some 3 }] none
        none false ≠ some { baseStory with attempts := 3, max_attempts := some 3 } ∧
    select_next_story [{ baseStory with attempts := 2, max_attempts := some 3 }] none
        none false = some { baseStory with attempts := 2, max_attempts := some 3 } ∧
    select_next_story [{ baseStory with status := "pass" }] none none false ≠
      some { baseStory with status := "pass" } := by
  refine ⟨claim5_cap_boundary.1 _ none _ 3 (by decide) (by decide), ?_, ?_⟩
  · exact claim5_cap_boundary.2.1 _ none 3 (by decide) (by decide) (by decide)
  · exact claim5_cap_boundary.2.2 _ none _ (by decide)

/-- C6 counterexample: a persisted story with id `US1` that the new
extraction no longer produces is dropped by the merge (the leftover loop
keeps only ids NOT matching `^US\d+$`), so the merged story list is empty:
the claim that every previously persisted id is kept is false. -/
theorem claim6_counterexample :
    mergeStories [c6Story] [] [] = [] ∧ c6Story.id = "US1" := by
  constructor
  · show (List.mergeSort [] prdLe : List Story) = []
    exact List.mergeSort_nil
  · rfl

/-- C6 (amended): the merge keeps every persisted story id that does not
match `^US\d+$` (appending the leftover to the merged list), and every id the
fresh extraction produces; persisted `US`-pattern ids the extraction no
longer produces are the ones dropped. -/
theorem claim6_merge_keeps_non_US_ids :
    ∀ (existingStories : List Story) (userStories : List UserStory)
      (tasksByStory : List (String × List String)),
      (∀ s ∈ existingStories, isUSId s.id = false →
        ∃ m ∈ mergeStories existingStories userStories tasksByStory, m.id = s.id) ∧
      (∀ us ∈ userStories,
        ∃ m ∈ mergeStories existingStories userStories tasksByStory, m.id = us.id) := by
  intro existingStories userStories tasksByStory
  constructor
  · intro s hs hUS
    have hsome := buildStoriesMap_containsKey hs
    have hinv := buildStoriesMap_idInv existingStories
    rcases mergeLoop_key_covered tasksByStory userStories (buildStoriesMap existingStories)
        s.id hinv hsome with ⟨m, hm, hid⟩ | ⟨v, hv, hvid⟩
    · exact ⟨m, mem_mergeStories_of_loopFst hm, hid⟩
    · exact ⟨v, mem_mergeStories_of_loopSnd hv hUS, hvid⟩
  · intro us hus
    obtain ⟨m, hm, hid⟩ := mergeLoop_covers_userStory tasksByStory userStories
      (buildStoriesMap existingStories) us hus (buildStoriesMap_idInv existingStories)
    exact ⟨m, mem_mergeStories_of_loopFst hm, hid⟩

/-- C6 witness: a persisted story with an old task-style id survives a merge
with an extraction that no longer produces it. -/
theorem claim6_witness :
    ∃ m ∈ mergeStories [{ baseStory with id := "T1" }] [] [], m.id = "T1" :=
  (claim6_merge_keeps_non_US_ids [{ baseStory with id := "T1" }] [] []).1
    { baseStory with id := "T1" } (List.mem_singleton.mpr rfl) (by decide)

/-- C7 counterexample: when the fresh extraction links no tasks to `US1`,
the merged story keeps its old `tasks` (`["T1"]`) instead of taking the
freshly extracted (empty) value, so `tasks` is not always updated to the
freshly extracted value as the claim states. -/
theorem claim7_counterexample :
    (mergeStories [c7Existing] [c7US] []).map (fun m => m.tasks) = [["T1"]] ∧
      assocGetD ([] : List (String × List String)) "US1" ([] : List String) = [] := by
  constructor
  · show (List.mergeSort [updateExistingStory c7Existing c7US []] prdLe).map
      (fun m => m.tasks) = [["T1"]]
    rw [List.mergeSort_singleton]
    rfl
  · rfl

/-- C7 (amended): for a story in both the persisted backlog and the fresh
extraction (with distinct ids on both sides), the merged story is exactly the
in-place update: `title`, `description`, `priority`, `acceptance_criteria`
and `independent_test` take the freshly extracted values, `tasks` does so
only when the extraction links at least one task (otherwise the old value is
kept), and `status`, `attempts`, `last_error`, `last_updated_at` and
`max_attempts` are exactly the pre-extraction values. -/
theorem claim7_merge_preserves_runtime_fields :
    ∀ (existingStories : List Story) (userStories : List UserStory)
      (tasksByStory : List (String × List String)) (s : Story) (us : UserStory),
      (existingStories.map Story.id).Nodup → (userStories.map UserStory.id).Nodup →
      s ∈ existingStories → us ∈ userStories → us.id = s.id →
      ∃ m ∈ mergeStories existingStories userStories tasksByStory,
        m = updateExistingStory s us (assocGetD tasksByStory us.id []) ∧
        m.title = us.title ∧ m.description = us.description ∧
        m.priority = us.priority ∧ m.acceptance_criteria = acOf us ∧
        m.independent_test = us.independent_test ∧
        m.tasks = (if (assocGetD tasksByStory us.id []).isEmpty then s.tasks
                   else assocGetD tasksByStory us.id []) ∧
        m.status = s.status ∧ m.attempts = s.attempts ∧ m.last_error = s.last_error ∧
        m.last_updated_at = s.last_updated_at ∧ m.max_attempts = s.max_attempts := by
  intro existingStories userStories tasksByStory s us hnd1 hnd2 hs hus hid
  have hfind : assocFind (buildStoriesMap existingStories) us.id = some s := by
    rw [hid]
    exact buildStoriesMap_find_of_nodup hs hnd1
  have hmem := mergeLoop_emits_update tasksByStory userStories
    (buildStoriesMap existingStories) us s hus hnd2 hfind
  exact ⟨updateExistingStory s us (assocGetD tasksByStory us.id []),
    mem_mergeStories_of_loopFst hmem, rfl, rfl, rfl, rfl, rfl, rfl, rfl, rfl, rfl, rfl,
    rfl, rfl⟩

/-- C7 witness: the merge of a concrete persisted story with its fresh
extraction yields the in-place update. -/
theorem claim7_witness :
    ∃ m ∈ mergeStories [c7Existing] [c7US] [("US1", ["T9"])],
      m = updateExistingStory c7Existing c7US ["T9"] := by
  obtain ⟨m, hmem, heq, _⟩ := claim7_merge_preserves_runtime_fields [c7Existing] [c7US]
    [("US1", ["T9"])] c7Existing c7US (by decide) (by decide)
    (List.mem_singleton.mpr rfl) (List.mem_singleton.mpr rfl) rfl
  exact ⟨m, hmem, heq⟩

/-- C8 counterexample: on an initialization failure (for example a missing
`prd.json`) the summary has zero `stories_fail`, so `main` exits 0, not
non-zero as the claim states. -/
theorem claim8_counterexample :
    mainExitCode (run_ralph_loop_summary (Except.error "PRD file not found") [] 0) = 0 ∧
      (run_ralph_loop_summary (Except.error "PRD file not found") [] 0).error =
        some "PRD file not found" := by
  constructor
  · rfl
  · rfl

/-- C8 (amended): on an initialization failure the summary carries the error
and zero story counts, the loop never starts (`iterations = 0`), and the exit
code is 0 (since `stories_fail = 0`); otherwise the exit code is non-zero
exactly when some story ended in `fail` status. -/
theorem claim8_exit_code :
    ∀ (e : String) (finalStories : List Story) (iters : Nat),
      run_ralph_loop_summary (Except.error e) finalStories iters =
        { error := some e, stories_total := 0, stories_pass := 0, stories_fail := 0,
          stories_todo := none, stories_in_progress := none, iterations := 0 } ∧
      mainExitCode (run_ralph_loop_summary (Except.error e) finalStories iters) = 0 ∧
      mainExitCode (run_ralph_loop_summary (Except.ok ()) finalStories iters) =
        (if 0 < countStatus "fail" finalStories then 1 else 0) := by
  intro e finalStories iters
  refine ⟨rfl, rfl, ?_⟩
  unfold mainExitCode run_ralph_loop_summary countStatus
  rfl

set_option maxRecDepth 20000 in
/-- C9 counterexample: with model `foo` (default limit 4096) and 4000
reserved tokens the claimed effective budget is 96 tokens, but a 300
character input (100 estimated tokens) is below the code's floor of 500 and
is returned unchanged: the output carries no truncation marker and its
estimate exceeds the claimed budget. -/
theorem claim9_counterexample :
    limit_context_for_model (List.replicate 300 'a') "foo" 4000 =
      List.replicate 300 'a' ∧
      get_model_context_limit "foo" - 4000 <
        estimate_tokens (limit_context_for_model (List.replicate 300 'a') "foo" 4000) := by
  constructor
  · rfl
  · decide

/-- C9 (amended): with the effective budget `max 500 (limit - reserve)`
(the code floors the budget at 500 tokens), an input within the budget is
returned unchanged, and an input over the budget yields an output that
contains a truncation marker (the common `due to length limits` core) and
whose estimated token size is at most the budget plus the 15 estimated
tokens of the appended marker. -/
theorem claim9_truncation :
    ∀ (context : List Char) (model_name : String) (reserve_tokens : Nat),
      (estimate_tokens context ≤
          max 500 (get_model_context_limit model_name - reserve_tokens) →
        limit_context_for_model context model_name reserve_tokens = context) ∧
      (max 500 (get_model_context_limit model_name - reserve_tokens) <
          estimate_tokens context →
        (∃ l r, limit_context_for_model context model_name reserve_tokens =
          l ++ truncNoteCore ++ r) ∧
        estimate_tokens (limit_context_for_model context model_name reserve_tokens) ≤
          max 500 (get_model_context_limit model_name - reserve_tokens) + 15) := by
  intro context model_name reserve_tokens
  constructor
  · intro h
    unfold limit_context_for_model
    by_cases hc : context.isEmpty = true
    · rw [if_pos hc]
    · rw [if_neg hc]
      exact truncate_unchanged context _ reserve_tokens h
  · intro h
    have hnonempty : context.isEmpty = false := by
      cases hc : context.isEmpty with
      | false => rfl
      | true =>
        rw [List.isEmpty_iff] at hc
        rw [hc] at h
        simp [estimate_tokens] at h
    unfold limit_context_for_model
    simp only [hnonempty, Bool.false_eq_true, if_false]
    exact truncate_over_budget context _ reserve_tokens h

set_option maxRecDepth 20000 in
/-- C9 witness: a 30 character input fits the budget and is unchanged; a
1600 character input (533 tokens, budget 500) is truncated with a marker and
lands within budget plus marker. -/
theorem claim9_witness :
    limit_context_for_model (List.replicate 30 'a') "foo" 3596 =
      List.replicate 30 'a' ∧
      ((∃ l r, limit_context_for_model (List.replicate 1600 'a') "foo" 3596 =
        l ++ truncNoteCore ++ r) ∧
      estimate_tokens (limit_context_for_model (List.replicate 1600 'a') "foo" 3596) ≤
        max 500 (get_model_context_limit "foo" - 3596) + 15) :=
  ⟨(claim9_truncation (List.replicate 30 'a') "foo" 3596).1 (by decide),
    (claim9_truncation (List.replicate 1600 'a') "foo" 3596).2 (by decide)⟩
